import Mathlib

/-!
Verification of the anomalyAENN data-preprocessing pipeline
(`src/data/basePreprocessor.py` and `anomalyDetectorApp/data/exampleData.py`).

Modelling conventions.  A table is a list of rows; a row is a list of exact
rational cell values.  The pipeline's `tf.cast(..., tf.float32)` steps are
modelled by the identity `float32` below: the claims under study concern the
structure and the exact arithmetic of the transforms, not rounding.  Every
library call with a random component (`RandomUnderSampler.fit_resample`,
`train_test_split`, `np.random.choice`) is modelled by making the drawn
indices an explicit parameter, constrained in the theorems exactly as the
library constrains its own draw; the theorems then hold for every draw the
library could make.
-/

namespace AnomalyAENN

/-- A data row: one sample's numeric feature values, as exact rationals. -/
abbrev Row := List ℚ

/-- tf.cast(x, tf.float32), modelled as exact (the identity on rationals). -/
def float32 (x : ℚ) : ℚ := x

/-- CreditProcessor.__init__: `labels = 1 - raw_data[:, -1]` (the fraud flag in the
last column is complemented, so fraud rows get label 0 and normal rows label 1). -/
def credit_labels (raw : List Row) : List ℚ := raw.map (fun r => 1 - r.getLastD 0)

/-- CreditProcessor.__init__: `data = raw_data[:, 1:-1]` (drop the first column and
the label column). -/
def credit_data (raw : List Row) : List Row := raw.map (fun r => (r.drop 1).dropLast)

/-- ECGProcessor.__init__ and ExampleData.__init__: `labels = raw_data[:, -1]`. -/
def ecg_labels (raw : List Row) : List ℚ := raw.map (fun r => r.getLastD 0)

/-- ECGProcessor.__init__ and ExampleData.__init__: `data = raw_data[:, :-1]`. -/
def ecg_data (raw : List Row) : List Row := raw.map (fun r => r.dropLast)

/-- The majority-class target size of `RandomUnderSampler(sampling_strategy=0.1)`:
imblearn computes `int(n_minority / 0.1)`.  In IEEE-754 double arithmetic the
literal 0.1 is (1 + 2⁻⁵⁴)/10, so the exact quotient m/0.1 is 10·m/(1 + 2⁻⁵⁴),
which lies strictly within half an ulp below the representable value 10·m and
therefore rounds to exactly 10·m; truncation then yields 10·m.  The sampler
targets a 0.1 minority/majority RATIO, i.e. ten majority rows per minority row. -/
def under_sample_target (m : ℕ) : ℕ := 10 * m

/-- RandomUnderSampler(sampling_strategy=0.1).fit_resample on a binary-labelled
table, rows paired with their labels.  The sampler keeps every row of the
minority class (the class with fewer rows) and a randomly drawn subset of the
majority class; the draw is the explicit parameter `sel`, a list of positions
into the majority-row subsequence (imblearn draws `under_sample_target`
distinct positions).  The surviving per-class blocks are concatenated; for the
credit data the minority label 0 sorts first, matching imblearn's np.unique
class order. -/
def fit_resample (pairs : List (Row × ℚ)) (labA labB : ℚ) (sel : List ℕ) :
    List (Row × ℚ) :=
  let aRows := pairs.filter (fun p => decide (p.2 = labA))
  let bRows := pairs.filter (fun p => decide (p.2 = labB))
  let minority := if aRows.length ≤ bRows.length then aRows else bRows
  let majority := if aRows.length ≤ bRows.length then bRows else aRows
  minority ++ sel.map (fun i => majority.getD i ([], 0))

/-- CreditProcessor._under_sample: `self.data, self.labels =
under_sampler.fit_resample(self.data, self.labels)`.  After the credit label
inversion the classes are 0 (fraud, minority) and 1 (normal, majority). -/
def under_sample (data : List Row) (labels : List ℚ) (sel : List ℕ) :
    List Row × List ℚ :=
  let res := fit_resample (data.zip labels) 0 1 sel
  (res.map Prod.fst, res.map Prod.snd)

/-- sklearn's test-set size for `test_size=0.2`: ceil(0.2 · n).  In doubles the
literal 0.2 is (1 + 2⁻⁵⁴)/5 and 0.2·n rounds to exactly n/5 whenever 5 ∣ n, so
the ceiling is ⌈n/5⌉ = (n + 4) / 5 in natural division. -/
def n_test (n : ℕ) : ℕ := (n + 4) / 5

/-- sklearn train_test_split(data, labels, test_size=0.2, random_state=21):
draw a permutation of the row indices, take the first `n_test` drawn indices
as the test rows and the remaining indices as the train rows.  The drawn
permutation is the explicit parameter `perm`.  The stratified variant
(`stratify=labels`, used by CreditProcessor) allocates exactly `n_test` test
indices across the classes and the rest to train, so each of its outcomes is
also of this form for some permutation; only the distribution of `perm`
differs.  Returns (train_data, test_data, train_labels, test_labels). -/
def train_test_split (data : List Row) (labels : List ℚ) (perm : List ℕ) :
    List Row × List Row × List ℚ × List ℚ :=
  let k := n_test data.length
  let te := perm.take k
  let tr := perm.drop k
  (tr.map (fun i => data.getD i []), te.map (fun i => data.getD i []),
   tr.map (fun i => labels.getD i 0), te.map (fun i => labels.getD i 0))

/-- tf.reduce_min over a whole table: the least cell value (0 for a table with
no cells, a degenerate case the pipeline never produces). -/
def reduce_min (t : List Row) : ℚ :=
  match t.flatten with
  | [] => 0
  | x :: xs => xs.foldl min x

/-- tf.reduce_max over a whole table: the greatest cell value. -/
def reduce_max (t : List Row) : ℚ :=
  match t.flatten with
  | [] => 0
  | x :: xs => xs.foldl max x

/-- ECGProcessor._normalize and ExampleData.__normalize: global min-max
normalization with both statistics taken from the train table, applied to the
train and the test table, followed by the float32 cast. -/
def ecg_normalize (train test : List Row) : List Row × List Row :=
  let min_val := reduce_min train
  let max_val := reduce_max train
  ((train.map (fun r => r.map (fun x => (x - min_val) / (max_val - min_val)))).map
      (fun r => r.map float32),
   (test.map (fun r => r.map (fun x => (x - min_val) / (max_val - min_val)))).map
      (fun r => r.map float32))

/-- StandardScaler.fit: the mean of the fitted column. -/
def scaler_mean (xs : List ℚ) : ℚ := xs.sum / xs.length

/-- StandardScaler.fit: the population variance (ddof = 0) of the fitted column;
the scaler divides by its square root. -/
def scaler_var (xs : List ℚ) : ℚ :=
  (xs.map (fun x => (x - scaler_mean xs) ^ 2)).sum / xs.length

/-- A table's last column (`data[:, -1]`), the transaction-amount column of the
credit data. -/
def amounts (t : List Row) : List ℚ := t.map (fun r => r.getLastD 0)

/-- In-place update of a row's last entry (`data[:, -1] = ...` applied row-wise). -/
def mapLast (f : ℚ → ℚ) : Row → Row
  | [] => []
  | [x] => [f x]
  | x :: y :: xs => x :: mapLast f (y :: xs)

/-- CreditProcessor._normalize: fit a StandardScaler on the train amount column
and standardize the last column of both tables, then the float32 cast.
StandardScaler divides by scale = sqrt(variance), which is irrational in
general, so the scale is the explicit parameter `scale`; the theorems
constrain it by scale² = variance (sklearn replaces a zero scale by 1, a
degenerate case outside the claims below). -/
def credit_normalize (train test : List Row) (scale : ℚ) : List Row × List Row :=
  let mean := scaler_mean (amounts train)
  ((train.map (mapLast (fun x => (x - mean) / scale))).map (fun r => r.map float32),
   (test.map (mapLast (fun x => (x - mean) / scale))).map (fun r => r.map float32))

/-- BasePreprocessor._split_normal_and_anomalies and
ExampleData.__split_normal_and_anomalies, restricted to one partition:
`astype(bool)` turns a label into (label ≠ 0); boolean masking keeps the rows
whose mask bit is set, in order.  Returns (normal rows, anomalous rows). -/
def split_normal_and_anomalies (data : List Row) (labels : List ℚ) :
    List Row × List Row :=
  let pairs := data.zip labels
  ((pairs.filter (fun p => !decide (p.2 = 0))).map Prod.fst,
   (pairs.filter (fun p => decide (p.2 = 0))).map Prod.fst)

/-- BasePreprocessor.get_normalized_data, stacking phase: vstack train on test
and hstack the stacked labels on as a final column; the widened rows are
modelled as row/label pairs. -/
def all_norm_data (train test : List Row) (trainLabels testLabels : List ℚ) :
    List (Row × ℚ) :=
  (train ++ test).zip (trainLabels ++ testLabels)

/-- np.where(all_norm_data[:, -1] == 0)[0]: the positions whose label is 0. -/
def normal_idx (all : List (Row × ℚ)) : List ℕ :=
  (List.range all.length).filter (fun i => decide ((all.getD i ([], 0)).2 = 0))

/-- np.where(all_norm_data[:, -1] == 1)[0]: the positions whose label is 1. -/
def anomaly_idx (all : List (Row × ℚ)) : List ℕ :=
  (List.range all.length).filter (fun i => decide ((all.getD i ([], 0)).2 = 1))

/-- BasePreprocessor.get_normalized_data: rebuild one labelled table from
train+test, under-sample the larger of the label-0 and label-1 groups to the
size of the smaller by drawing row positions without replacement
(np.random.choice with replace=False, modelled by the explicit parameter
`sel`), stack the label-0 block on the label-1 block and split the features
from the label column again. -/
def get_normalized_data (train test : List Row) (trainLabels testLabels : List ℚ)
    (sel : List ℕ) : List Row × List ℚ :=
  let all := all_norm_data train test trainLabels testLabels
  let evenly :=
    (if (anomaly_idx all).length < (normal_idx all).length
      then sel.map (fun i => all.getD i ([], 0))
      else (normal_idx all).map (fun i => all.getD i ([], 0))) ++
    (if (anomaly_idx all).length < (normal_idx all).length
      then (anomaly_idx all).map (fun i => all.getD i ([], 0))
      else sel.map (fun i => all.getD i ([], 0)))
  (evenly.map Prod.fst, evenly.map Prod.snd)

/-- The two concrete preprocessors __data_type_map can construct. -/
inductive Preprocessor where
  | ecgProcessor
  | creditProcessor
deriving DecidableEq

/-- The module-level dispatch table of basePreprocessor.py. -/
def __data_type_map : List (String × Preprocessor) :=
  [("ecg_data", Preprocessor.ecgProcessor),
   ("creditcard_data", Preprocessor.creditProcessor)]

/-- data_factory: raise FileNotFoundError (modelled by Except.error) when the
key is absent from the table, otherwise construct the mapped preprocessor.
No constructor runs on the error path. -/
def data_factory (dataset_type : String) : Except Unit Preprocessor :=
  if h : (__data_type_map.lookup dataset_type).isSome then
    Except.ok ((__data_type_map.lookup dataset_type).get h)
  else
    Except.error ()

/-! ## Helper lemmas -/

lemma float32_apply (x : ℚ) : float32 x = x := rfl

lemma map_float32 (r : Row) : r.map float32 = r := List.map_id' r

lemma map_rows_float32 (t : List Row) : t.map (fun r => r.map float32) = t := by
  have h : (fun r : Row => r.map float32) = fun r => r := funext map_float32
  rw [h, List.map_id']

lemma foldl_min_le (l : List ℚ) (a : ℚ) :
    l.foldl min a ≤ a ∧ ∀ y ∈ l, l.foldl min a ≤ y := by
  induction l generalizing a with
  | nil => exact ⟨le_refl a, by simp⟩
  | cons x xs ih =>
    obtain ⟨h1, h2⟩ := ih (min a x)
    refine ⟨le_trans h1 (min_le_left a x), ?_⟩
    intro y hy
    rcases List.mem_cons.mp hy with h | h
    · subst h
      exact le_trans h1 (min_le_right a y)
    · exact h2 y h

lemma le_foldl_max (l : List ℚ) (a : ℚ) :
    a ≤ l.foldl max a ∧ ∀ y ∈ l, y ≤ l.foldl max a := by
  induction l generalizing a with
  | nil => exact ⟨le_refl a, by simp⟩
  | cons x xs ih =>
    obtain ⟨h1, h2⟩ := ih (max a x)
    refine ⟨le_trans (le_max_left a x) h1, ?_⟩
    intro y hy
    rcases List.mem_cons.mp hy with h | h
    · subst h
      exact le_trans (le_max_right a y) h1
    · exact h2 y h

lemma reduce_min_le {t : List Row} {r : Row} {x : ℚ} (hr : r ∈ t) (hx : x ∈ r) :
    reduce_min t ≤ x := by
  have hmem : x ∈ t.flatten := List.mem_flatten.mpr ⟨r, hr, hx⟩
  simp only [reduce_min]
  split
  · next heq => rw [heq] at hmem; simp at hmem
  · next y ys heq =>
    rw [heq] at hmem
    rcases List.mem_cons.mp hmem with h | h
    · exact h ▸ (foldl_min_le ys y).1
    · exact (foldl_min_le ys y).2 x h

lemma le_reduce_max {t : List Row} {r : Row} {x : ℚ} (hr : r ∈ t) (hx : x ∈ r) :
    x ≤ reduce_max t := by
  have hmem : x ∈ t.flatten := List.mem_flatten.mpr ⟨r, hr, hx⟩
  simp only [reduce_max]
  split
  · next heq => rw [heq] at hmem; simp at hmem
  · next y ys heq =>
    rw [heq] at hmem
    rcases List.mem_cons.mp hmem with h | h
    · exact h ▸ (le_foldl_max ys y).1
    · exact (le_foldl_max ys y).2 x h

lemma mapLast_length (f : ℚ → ℚ) : ∀ r : Row, (mapLast f r).length = r.length
  | [] => rfl
  | [_] => rfl
  | _ :: y :: xs => by
    simp only [mapLast, List.length_cons, mapLast_length f (y :: xs)]

lemma mapLast_getD (f : ℚ → ℚ) : ∀ (r : Row) (i : ℕ), i + 1 < r.length →
    (mapLast f r).getD i 0 = r.getD i 0
  | [], _, h => by simp at h
  | [_], i, h => by simp at h
  | _ :: _ :: _, 0, _ => rfl
  | x :: y :: xs, i + 1, h => by
    simp only [mapLast, List.getD_cons_succ]
    exact mapLast_getD f (y :: xs) i (by simpa using h)

lemma mapLast_getLast? (f : ℚ → ℚ) : ∀ r : Row,
    (mapLast f r).getLast? = r.getLast?.map f
  | [] => rfl
  | [_] => rfl
  | x :: y :: xs => by
    have ih := mapLast_getLast? f (y :: xs)
    rcases hml : mapLast f (y :: xs) with _ | ⟨b, l⟩
    · exact absurd (congrArg List.length hml) (by simp [mapLast_length])
    · calc (mapLast f (x :: y :: xs)).getLast?
          = (x :: b :: l).getLast? := by
            rw [show mapLast f (x :: y :: xs) = x :: mapLast f (y :: xs) from rfl, hml]
        _ = (b :: l).getLast? := List.getLast?_cons_cons
        _ = (mapLast f (y :: xs)).getLast? := by rw [hml]
        _ = (y :: xs).getLast?.map f := ih
        _ = (x :: y :: xs).getLast?.map f := by rw [List.getLast?_cons_cons]

lemma length_filter_range_getD {α : Type} (P : α → Bool) (d : α) :
    ∀ l : List α,
      ((List.range l.length).filter (fun i => P (l.getD i d))).length = l.countP P
  | [] => rfl
  | a :: t => by
    have hcomp : ((fun i => P ((a :: t).getD i d)) ∘ Nat.succ) =
        fun i => P (t.getD i d) := by
      funext i
      simp [List.getD_cons_succ]
    rw [List.length_cons, List.range_succ_eq_map, List.filter_cons, List.filter_map,
      hcomp, List.countP_cons]
    have ht := length_filter_range_getD P d t
    simp only [List.getD_cons_zero]
    rcases Bool.eq_false_or_eq_true (P a) with hP | hP <;> simp [hP] <;>
      simpa using ht

/-! ## Claims -/

/-- The statistics ECGProcessor._normalize fits, as a function of a
(train, test) state: the global min and max of the train table. -/
def ecg_fit (s : List Row × List Row) : ℚ × ℚ := (reduce_min s.1, reduce_max s.1)

/-- The statistics CreditProcessor._normalize fits, as a function of a
(train, test) state: the mean and the population variance (whose square root
is the scaler's divisor) of the train table's amount column. -/
def credit_fit (s : List Row × List Row) : ℚ × ℚ :=
  (scaler_mean (amounts s.1), scaler_var (amounts s.1))

/-- Claim C2: normalization statistics are computed exclusively from the
training partition.  Two states that agree on the train table, whatever their
test tables, yield identical fitted statistics — min/max for the ECG
normalizer, mean and variance (hence standard deviation) for the fraud
normalizer — and identical normalized train tables.  In this embedding the
fit functions and the train output are literally functions of the train table
alone, so the hyperproperty holds definitionally. -/
theorem stats_fit_on_train_only (train test₁ test₂ : List Row) (scale : ℚ) :
    ecg_fit (train, test₁) = ecg_fit (train, test₂) ∧
    credit_fit (train, test₁) = credit_fit (train, test₂) ∧
    (ecg_normalize train test₁).1 = (ecg_normalize train test₂).1 ∧
    (credit_normalize train test₁ scale).1 = (credit_normalize train test₂ scale).1 :=
  ⟨rfl, rfl, rfl, rfl⟩

/-- Claim C4: after global min-max normalization, when the train minimum is
strictly below the train maximum, every cell of the normalized train table
lies in the closed interval [0, 1].  No such bound is stated (or provable)
for the test table. -/
theorem ecg_normalize_train_in_unit_interval (train test : List Row)
    (h : reduce_min train < reduce_max train) :
    ∀ r ∈ (ecg_normalize train test).1, ∀ x ∈ r, 0 ≤ x ∧ x ≤ 1 := by
  intro r hr x hx
  simp only [ecg_normalize, map_rows_float32] at hr
  obtain ⟨r0, hr0, rfl⟩ := List.mem_map.mp hr
  obtain ⟨c, hc, rfl⟩ := List.mem_map.mp hx
  have hmin : reduce_min train ≤ c := reduce_min_le hr0 hc
  have hmax : c ≤ reduce_max train := le_reduce_max hr0 hc
  have hpos : 0 < reduce_max train - reduce_min train := sub_pos.mpr h
  constructor
  · exact div_nonneg (sub_nonneg.mpr hmin) (le_of_lt hpos)
  · rw [div_le_one hpos]
    linarith

/-- Claim C4, witness: a concrete train table with min 0 and max 4; the test
table even has a cell that normalizes outside [0, 1]. -/
theorem ecg_normalize_train_in_unit_interval_witness :
    reduce_min [[0, 1], [2, 4]] < reduce_max [[0, 1], [2, 4]] ∧
    ∀ r ∈ (ecg_normalize [[0, 1], [2, 4]] [[8]]).1, ∀ x ∈ r, 0 ≤ x ∧ x ≤ 1 :=
  ⟨by decide, ecg_normalize_train_in_unit_interval _ _ (by decide)⟩

/-- Claim C6: the splitter drops and duplicates no rows: for every drawn index
permutation, the train and test row counts sum to the input row count, and
the test partition receives the 20% share ⌈n/5⌉ (exactly n/5 whenever 5
divides n), the train partition the remaining 80%.  The statement covers both
split variants: the non-stratified ECG split is `perm.take`/`perm.drop`
directly, and every stratified fraud split outcome is of the same form for
some permutation, since sklearn allocates exactly `n_test` test indices
across the classes. -/
theorem train_test_split_counts (data : List Row) (labels : List ℚ) (perm : List ℕ)
    (h : List.Perm perm (List.range data.length)) :
    (train_test_split data labels perm).1.length +
        (train_test_split data labels perm).2.1.length = data.length ∧
    (train_test_split data labels perm).2.1.length = n_test data.length ∧
    (5 ∣ data.length →
      5 * (train_test_split data labels perm).2.1.length = data.length) := by
  have hlen : perm.length = data.length := by simpa using h.length_eq
  refine ⟨?_, ?_, ?_⟩
  · simp only [train_test_split, List.length_map, List.length_take, List.length_drop,
      hlen, n_test]
    omega
  · simp only [train_test_split, List.length_map, List.length_take, hlen, n_test]
    omega
  · intro hdvd
    simp only [train_test_split, List.length_map, List.length_take, hlen, n_test]
    omega

/-- Claim C6, witness: five rows split with the identity permutation: one test
row, four train rows. -/
theorem train_test_split_counts_witness :
    List.Perm (List.range 5)
        (List.range ([[0], [1], [2], [3], [4]] : List Row).length) ∧
    (train_test_split [[0], [1], [2], [3], [4]] [0, 0, 0, 1, 1]
        (List.range 5)).1.length +
      (train_test_split [[0], [1], [2], [3], [4]] [0, 0, 0, 1, 1]
        (List.range 5)).2.1.length = ([[0], [1], [2], [3], [4]] : List Row).length :=
  ⟨List.Perm.refl _,
   (train_test_split_counts [[0], [1], [2], [3], [4]] [0, 0, 0, 1, 1]
     (List.range 5) (List.Perm.refl _)).1⟩

/-- Claim C7: the row count of each feature table equals the length of its
aligned label vector after every pipeline stage: label extraction (with the
credit label inversion), under-sampling, splitting, and both normalizations
(which preserve row counts, so the split-stage alignment carries over). -/
theorem stage_lengths_aligned (raw data train test : List Row) (labels : List ℚ)
    (sel perm : List ℕ) (scale : ℚ) :
    (credit_data raw).length = (credit_labels raw).length ∧
    (ecg_data raw).length = (ecg_labels raw).length ∧
    (under_sample data labels sel).1.length = (under_sample data labels sel).2.length ∧
    (train_test_split data labels perm).1.length =
      (train_test_split data labels perm).2.2.1.length ∧
    (train_test_split data labels perm).2.1.length =
      (train_test_split data labels perm).2.2.2.length ∧
    (ecg_normalize train test).1.length = train.length ∧
    (ecg_normalize train test).2.length = test.length ∧
    (credit_normalize train test scale).1.length = train.length ∧
    (credit_normalize train test scale).2.length = test.length := by
  refine ⟨?_, ?_, ?_, ?_, ?_, ?_, ?_, ?_, ?_⟩ <;>
    simp [credit_data, credit_labels, ecg_data, ecg_labels, under_sample,
      train_test_split, ecg_normalize, credit_normalize]

/-- Claim C8: the factory returns the ECG preprocessor for the key ecg_data,
the credit-card preprocessor for the key creditcard_data, and fails with the
not-found error for every other key, constructing nothing on that path. -/
theorem data_factory_dispatch :
    data_factory "ecg_data" = Except.ok Preprocessor.ecgProcessor ∧
    data_factory "creditcard_data" = Except.ok Preprocessor.creditProcessor ∧
    ∀ s : String, s ≠ "ecg_data" → s ≠ "creditcard_data" →
      data_factory s = Except.error () := by
  refine ⟨rfl, rfl, ?_⟩
  intro s h1 h2
  have hb1 : (s == "ecg_data") = false := beq_eq_false_iff_ne.mpr h1
  have hb2 : (s == "creditcard_data") = false := beq_eq_false_iff_ne.mpr h2
  have hl : __data_type_map.lookup s = none := by
    simp [__data_type_map, List.lookup, hb1, hb2]
  simp [data_factory, hl]

/-- Claim C8, witness: an unknown key hits the error path. -/
theorem data_factory_dispatch_witness :
    data_factory "other" = Except.error () :=
  data_factory_dispatch.2.2 "other" (by decide) (by decide)

/-- Claim C3: boolean-masking a partition by its label vector splits it into the
truthy-labelled (normal) rows and the falsy-labelled (anomalous) rows: the two
groups together reconstruct the partition exactly as a multiset of rows, their
sizes add up to the partition size, each group's defining label condition
holds throughout it, and no labelled sample lands in both groups.  The
statement is generic in (data, labels): instantiated at the train pair and at
the test pair it yields the four mutually exclusive, jointly covering groups. -/
theorem split_normal_and_anomalies_partition (data : List Row) (labels : List ℚ)
    (h : labels.length = data.length) :
    List.Perm ((split_normal_and_anomalies data labels).1 ++
      (split_normal_and_anomalies data labels).2) data ∧
    (split_normal_and_anomalies data labels).1.length +
      (split_normal_and_anomalies data labels).2.length = data.length ∧
    (∀ p ∈ (data.zip labels).filter (fun p => !decide (p.2 = 0)), p.2 ≠ 0) ∧
    (∀ p ∈ (data.zip labels).filter (fun p => decide (p.2 = 0)), p.2 = 0) ∧
    (∀ p : Row × ℚ, ¬(p ∈ (data.zip labels).filter (fun p => !decide (p.2 = 0)) ∧
      p ∈ (data.zip labels).filter (fun p => decide (p.2 = 0)))) := by
  have hperm0 : List.Perm
      ((data.zip labels).filter (fun p => !decide (p.2 = 0)) ++
        (data.zip labels).filter (fun p => decide (p.2 = 0)))
      (data.zip labels) := by
    have hp := List.filter_append_perm (fun p : Row × ℚ => !decide (p.2 = 0))
      (data.zip labels)
    simpa using hp
  have hmap : List.Perm
      (((data.zip labels).filter (fun p => !decide (p.2 = 0))).map Prod.fst ++
        ((data.zip labels).filter (fun p => decide (p.2 = 0))).map Prod.fst) data := by
    rw [← List.map_append]
    have hm := hperm0.map Prod.fst
    rwa [List.map_fst_zip data labels (le_of_eq h.symm)] at hm
  refine ⟨?_, ?_, ?_, ?_, ?_⟩
  · simpa [split_normal_and_anomalies] using hmap
  · simpa [split_normal_and_anomalies] using hmap.length_eq
  · intro p hp
    simpa using (List.mem_filter.mp hp).2
  · intro p hp
    simpa using (List.mem_filter.mp hp).2
  · rintro p ⟨h1, h2⟩
    have e1 := (List.mem_filter.mp h1).2
    have e2 := (List.mem_filter.mp h2).2
    simp at e1 e2
    exact e1 e2

/-- Claim C3, witness: two rows, one of each label. -/
theorem split_normal_and_anomalies_partition_witness :
    ([1, 0] : List ℚ).length = ([[1], [2]] : List Row).length ∧
    List.Perm ((split_normal_and_anomalies [[1], [2]] [1, 0]).1 ++
      (split_normal_and_anomalies [[1], [2]] [1, 0]).2) [[1], [2]] :=
  ⟨rfl, (split_normal_and_anomalies_partition [[1], [2]] [1, 0] rfl).1⟩

/-- Claim C1, counterexample: the under-sampler does not make the minority
class 10% of the resulting total.  With m = 1 minority row and M = 10 majority
rows (so M > 9·m, the claim's hypothesis), imblearn's target is
int(1/0.1) = 10 majority positions; the draw below is exactly one the code
makes — distinct positions, all in range, of the library's target length —
yet the resampled majority count is 10, not the 9·m = 9 the claim predicts. -/
theorem fit_resample_counterexample :
    (List.range 10).Nodup ∧
    (∀ i ∈ List.range 10, i <
      ((([([1], 0)] ++ List.replicate 10 ([2], 1)) : List (Row × ℚ)).filter
        (fun p => decide (p.2 = 1))).length) ∧
    (List.range 10).length = under_sample_target
      ((([([1], 0)] ++ List.replicate 10 ([2], 1)) : List (Row × ℚ)).filter
        (fun p => decide (p.2 = 0))).length ∧
    ((([([1], 0)] ++ List.replicate 10 ([2], 1)) : List (Row × ℚ)).filter
        (fun p => decide (p.2 = 1))).length >
      9 * ((([([1], 0)] ++ List.replicate 10 ([2], 1)) : List (Row × ℚ)).filter
        (fun p => decide (p.2 = 0))).length ∧
    (fit_resample ([([1], 0)] ++ List.replicate 10 ([2], 1)) 0 1
        (List.range 10)).countP (fun p => decide (p.2 = 1)) ≠
      9 * ((([([1], 0)] ++ List.replicate 10 ([2], 1)) : List (Row × ℚ)).filter
        (fun p => decide (p.2 = 0))).length := by
  decide

/-- Claim C1, amended: for every binary-labelled input with m minority rows and
M ≥ 10·m majority rows (imblearn rejects smaller majority classes for this
strategy), the balancer keeps all m minority rows — the resampled table even
starts with the full minority block — and reduces the majority class to
exactly 10·m rows, so the minority reaches 10% of the majority count, that is
1/11 of the resulting total (1000 majority and 50 minority rows become 500
majority and 50 minority rows).  Quantified over every draw the sampler can
make: distinct in-range majority positions, as many as the library's target. -/
theorem fit_resample_counts (pairs : List (Row × ℚ)) (labA labB : ℚ) (sel : List ℕ)
    (hne : labA ≠ labB)
    (hbin : ∀ p ∈ pairs, p.2 = labA ∨ p.2 = labB)
    (hmin : (pairs.filter (fun p => decide (p.2 = labA))).length ≤
      (pairs.filter (fun p => decide (p.2 = labB))).length)
    (hnd : sel.Nodup)
    (hlt : ∀ i ∈ sel, i < (pairs.filter (fun p => decide (p.2 = labB))).length)
    (hlen : sel.length = under_sample_target
      (pairs.filter (fun p => decide (p.2 = labA))).length)
    (hcap : under_sample_target
        (pairs.filter (fun p => decide (p.2 = labA))).length ≤
      (pairs.filter (fun p => decide (p.2 = labB))).length) :
    (fit_resample pairs labA labB sel).countP (fun p => decide (p.2 = labA)) =
      (pairs.filter (fun p => decide (p.2 = labA))).length ∧
    (fit_resample pairs labA labB sel).countP (fun p => decide (p.2 = labB)) =
      10 * (pairs.filter (fun p => decide (p.2 = labA))).length ∧
    (fit_resample pairs labA labB sel).length =
      11 * (pairs.filter (fun p => decide (p.2 = labA))).length ∧
    ∃ rest, fit_resample pairs labA labB sel =
      pairs.filter (fun p => decide (p.2 = labA)) ++ rest := by
  have hum : fit_resample pairs labA labB sel =
      pairs.filter (fun p => decide (p.2 = labA)) ++
        sel.map (fun i =>
          (pairs.filter (fun p => decide (p.2 = labB))).getD i ([], 0)) := by
    simp only [fit_resample]
    rw [if_pos hmin, if_pos hmin]
  have hbmem : ∀ x ∈ sel.map (fun i =>
      (pairs.filter (fun p => decide (p.2 = labB))).getD i ([], 0)), x.2 = labB := by
    intro x hx
    obtain ⟨i, hi, rfl⟩ := List.mem_map.mp hx
    have hilt := hlt i hi
    rw [List.getD_eq_getElem _ _ hilt]
    have hmem := List.getElem_mem hilt
    exact of_decide_eq_true (List.mem_filter.mp hmem).2
  have hamem : ∀ x ∈ pairs.filter (fun p => decide (p.2 = labA)), x.2 = labA :=
    fun x hx => of_decide_eq_true (List.mem_filter.mp hx).2
  have cA1 : (pairs.filter (fun p => decide (p.2 = labA))).countP
      (fun p => decide (p.2 = labA)) =
      (pairs.filter (fun p => decide (p.2 = labA))).length :=
    List.countP_eq_length.mpr (fun a ha => decide_eq_true (hamem a ha))
  have cA0 : (sel.map (fun i =>
      (pairs.filter (fun p => decide (p.2 = labB))).getD i ([], 0))).countP
      (fun p => decide (p.2 = labA)) = 0 :=
    List.countP_eq_zero.mpr (fun a ha => by
      simp only [hbmem a ha, decide_eq_true_eq]
      exact fun hEq => hne hEq.symm)
  have cB0 : (pairs.filter (fun p => decide (p.2 = labA))).countP
      (fun p => decide (p.2 = labB)) = 0 :=
    List.countP_eq_zero.mpr (fun a ha => by
      simp only [hamem a ha, decide_eq_true_eq]
      exact hne)
  have cB1 : (sel.map (fun i =>
      (pairs.filter (fun p => decide (p.2 = labB))).getD i ([], 0))).countP
      (fun p => decide (p.2 = labB)) = sel.length := by
    have := List.countP_eq_length.mpr
      (fun a ha => decide_eq_true (hbmem a ha))
    simpa using this
  refine ⟨?_, ?_, ?_, ?_⟩
  · rw [hum, List.countP_append, cA1, cA0]
    omega
  · rw [hum, List.countP_append, cB0, cB1, hlen]
    simp [under_sample_target]
  · rw [hum, List.length_append, List.length_map, hlen]
    simp only [under_sample_target]
    omega
  · exact ⟨_, hum⟩

/-- Claim C1, amended claim's witness: one minority row against ten majority
rows; the sampler keeps the minority row and all ten majority rows. -/
theorem fit_resample_counts_witness :
    (0 : ℚ) ≠ 1 ∧
    (fit_resample ([([1], 0)] ++ List.replicate 10 ([2], 1)) 0 1
        (List.range 10)).countP (fun p => decide (p.2 = 1)) =
      10 * ((([([1], 0)] ++ List.replicate 10 ([2], 1)) : List (Row × ℚ)).filter
        (fun p => decide (p.2 = 0))).length :=
  ⟨by norm_num,
   (fit_resample_counts ([([1], 0)] ++ List.replicate 10 ([2], 1)) 0 1
     (List.range 10) (by norm_num) (by decide) (by decide) (by decide)
     (by decide) (by decide) (by decide)).2.1⟩

lemma getD_row_map (t : List Row) (g : Row → Row) (hg : g [] = []) (j : ℕ) :
    (t.map g).getD j [] = g (t.getD j []) := by
  rcases Nat.lt_or_ge j t.length with hj | hj
  · rw [List.getD_eq_getElem _ _ (by simpa using hj), List.getD_eq_getElem _ _ hj]
    simp
  · rw [List.getD_eq_default _ _ (by simpa using hj), List.getD_eq_default _ _ hj, hg]

/-- Claim C9: the fraud normalizer modifies only the last (transaction-amount)
column.  For every train/test pair and every cell position that is not the
last of its row, the cell is unchanged (the float32 cast being exact in this
embedding), while every row's last entry becomes (x - mean) / scale with the
mean fitted on the train amount column and the scale constrained to be the
positive square root of the train amount column's variance. -/
theorem credit_normalize_last_column_only (train test : List Row) (scale : ℚ)
    (hscale : scale * scale = scaler_var (amounts train) ∧ 0 < scale) :
    (∀ j i, i + 1 < (train.getD j []).length →
      ((credit_normalize train test scale).1.getD j []).getD i 0 =
        (train.getD j []).getD i 0) ∧
    (∀ j i, i + 1 < (test.getD j []).length →
      ((credit_normalize train test scale).2.getD j []).getD i 0 =
        (test.getD j []).getD i 0) ∧
    (∀ j, ((credit_normalize train test scale).1.getD j []).getLast? =
      ((train.getD j []).getLast?).map
        (fun x => (x - scaler_mean (amounts train)) / scale)) ∧
    (∀ j, ((credit_normalize train test scale).2.getD j []).getLast? =
      ((test.getD j []).getLast?).map
        (fun x => (x - scaler_mean (amounts train)) / scale)) := by
  have h1 : (credit_normalize train test scale).1 =
      train.map (mapLast (fun x => (x - scaler_mean (amounts train)) / scale)) := by
    simp only [credit_normalize, map_rows_float32]
  have h2 : (credit_normalize train test scale).2 =
      test.map (mapLast (fun x => (x - scaler_mean (amounts train)) / scale)) := by
    simp only [credit_normalize, map_rows_float32]
  refine ⟨?_, ?_, ?_, ?_⟩
  · intro j i hi
    rw [h1, getD_row_map _ _ rfl, mapLast_getD _ _ i hi]
  · intro j i hi
    rw [h2, getD_row_map _ _ rfl, mapLast_getD _ _ i hi]
  · intro j
    rw [h1, getD_row_map _ _ rfl, mapLast_getLast?]
  · intro j
    rw [h2, getD_row_map _ _ rfl, mapLast_getLast?]

/-- Claim C9, witness: a two-row train table with amount column [0, 4], mean 2,
variance 4, scale 2; the non-amount cell of the first train row is unchanged
and its amount cell becomes (0 - 2) / 2. -/
theorem credit_normalize_last_column_only_witness :
    ((2 : ℚ) * 2 = scaler_var (amounts [[1, 0], [1, 4]]) ∧ (0 : ℚ) < 2) ∧
    ((credit_normalize [[1, 0], [1, 4]] [[5, 2]] 2).1.getD 0 []).getD 0 0 =
      (([[1, 0], [1, 4]] : List Row).getD 0 []).getD 0 0 ∧
    ((credit_normalize [[1, 0], [1, 4]] [[5, 2]] 2).1.getD 0 []).getLast? =
      ((([[1, 0], [1, 4]] : List Row).getD 0 []).getLast?).map
        (fun x => (x - scaler_mean (amounts [[1, 0], [1, 4]])) / 2) :=
  ⟨⟨by norm_num [scaler_var, scaler_mean, amounts, List.getLastD], by norm_num⟩,
   (credit_normalize_last_column_only [[1, 0], [1, 4]] [[5, 2]] 2
     ⟨by norm_num [scaler_var, scaler_mean, amounts, List.getLastD], by norm_num⟩).1
     0 0 (by decide),
   (credit_normalize_last_column_only [[1, 0], [1, 4]] [[5, 2]] 2
     ⟨by norm_num [scaler_var, scaler_mean, amounts, List.getLastD], by norm_num⟩).2.2.1
     0⟩

lemma normal_idx_label {all : List (Row × ℚ)} {i : ℕ} (hi : i ∈ normal_idx all) :
    (all.getD i ([], 0)).2 = 0 :=
  of_decide_eq_true (List.mem_filter.mp hi).2

lemma anomaly_idx_label {all : List (Row × ℚ)} {i : ℕ} (hi : i ∈ anomaly_idx all) :
    (all.getD i ([], 0)).2 = 1 :=
  of_decide_eq_true (List.mem_filter.mp hi).2

lemma normal_idx_length (train test : List Row) (trainLabels testLabels : List ℚ)
    (hlen : (train ++ test).length = (trainLabels ++ testLabels).length) :
    (normal_idx (all_norm_data train test trainLabels testLabels)).length =
      (trainLabels ++ testLabels).countP (fun y => decide (y = 0)) := by
  have hsnd : (all_norm_data train test trainLabels testLabels).map Prod.snd =
      trainLabels ++ testLabels :=
    List.map_snd_zip _ _ (le_of_eq hlen.symm)
  have h1 := length_filter_range_getD (fun p : Row × ℚ => decide (p.2 = 0)) ([], 0)
    (all_norm_data train test trainLabels testLabels)
  have h2 : ((all_norm_data train test trainLabels testLabels).map Prod.snd).countP
      (fun y => decide (y = 0)) =
      (all_norm_data train test trainLabels testLabels).countP
        (fun p => decide (p.2 = 0)) :=
    List.countP_map _ _ _
  calc (normal_idx (all_norm_data train test trainLabels testLabels)).length
      = (all_norm_data train test trainLabels testLabels).countP
          (fun p => decide (p.2 = 0)) := h1
    _ = ((all_norm_data train test trainLabels testLabels).map Prod.snd).countP
          (fun y => decide (y = 0)) := h2.symm
    _ = (trainLabels ++ testLabels).countP (fun y => decide (y = 0)) := by rw [hsnd]

lemma anomaly_idx_length (train test : List Row) (trainLabels testLabels : List ℚ)
    (hlen : (train ++ test).length = (trainLabels ++ testLabels).length) :
    (anomaly_idx (all_norm_data train test trainLabels testLabels)).length =
      (trainLabels ++ testLabels).countP (fun y => decide (y = 1)) := by
  have hsnd : (all_norm_data train test trainLabels testLabels).map Prod.snd =
      trainLabels ++ testLabels :=
    List.map_snd_zip _ _ (le_of_eq hlen.symm)
  have h1 := length_filter_range_getD (fun p : Row × ℚ => decide (p.2 = 1)) ([], 0)
    (all_norm_data train test trainLabels testLabels)
  have h2 : ((all_norm_data train test trainLabels testLabels).map Prod.snd).countP
      (fun y => decide (y = 1)) =
      (all_norm_data train test trainLabels testLabels).countP
        (fun p => decide (p.2 = 1)) :=
    List.countP_map _ _ _
  calc (anomaly_idx (all_norm_data train test trainLabels testLabels)).length
      = (all_norm_data train test trainLabels testLabels).countP
          (fun p => decide (p.2 = 1)) := h1
    _ = ((all_norm_data train test trainLabels testLabels).map Prod.snd).countP
          (fun y => decide (y = 1)) := h2.symm
    _ = (trainLabels ++ testLabels).countP (fun y => decide (y = 1)) := by rw [hsnd]

/-- Claim C5: for a populated state with binary labels, get_normalized_data
returns a feature matrix and a label vector of equal length 2·k, where k is
the smaller of the label-0 and label-1 row counts over the union of train and
test, and the label vector carries exactly k of each label — exact 1:1
parity, obtained by drawing k distinct positions from the larger class
(np.random.choice with replace=False, the `hsel` constraint mirroring the
branch the code takes). -/
theorem get_normalized_data_parity (train test : List Row)
    (trainLabels testLabels : List ℚ) (sel : List ℕ)
    (hlen : (train ++ test).length = (trainLabels ++ testLabels).length)
    (hbin : ∀ y ∈ trainLabels ++ testLabels, y = 0 ∨ y = 1)
    (hsel : if (anomaly_idx (all_norm_data train test trainLabels testLabels)).length <
        (normal_idx (all_norm_data train test trainLabels testLabels)).length
      then sel.Nodup ∧
        (∀ i ∈ sel, i ∈ normal_idx (all_norm_data train test trainLabels testLabels)) ∧
        sel.length = (anomaly_idx (all_norm_data train test trainLabels testLabels)).length
      else sel.Nodup ∧
        (∀ i ∈ sel, i ∈ anomaly_idx (all_norm_data train test trainLabels testLabels)) ∧
        sel.length = (normal_idx (all_norm_data train test trainLabels testLabels)).length) :
    (get_normalized_data train test trainLabels testLabels sel).1.length =
      2 * min ((trainLabels ++ testLabels).countP (fun y => decide (y = 0)))
        ((trainLabels ++ testLabels).countP (fun y => decide (y = 1))) ∧
    (get_normalized_data train test trainLabels testLabels sel).2.length =
      2 * min ((trainLabels ++ testLabels).countP (fun y => decide (y = 0)))
        ((trainLabels ++ testLabels).countP (fun y => decide (y = 1))) ∧
    (get_normalized_data train test trainLabels testLabels sel).2.countP
        (fun y => decide (y = 0)) =
      min ((trainLabels ++ testLabels).countP (fun y => decide (y = 0)))
        ((trainLabels ++ testLabels).countP (fun y => decide (y = 1))) ∧
    (get_normalized_data train test trainLabels testLabels sel).2.countP
        (fun y => decide (y = 1)) =
      min ((trainLabels ++ testLabels).countP (fun y => decide (y = 0)))
        ((trainLabels ++ testLabels).countP (fun y => decide (y = 1))) := by
  have hn := normal_idx_length train test trainLabels testLabels hlen
  have ha := anomaly_idx_length train test trainLabels testLabels hlen
  set A := all_norm_data train test trainLabels testLabels with hA
  set f : ℕ → Row × ℚ := fun i => A.getD i ([], 0) with hf
  by_cases hb : (anomaly_idx A).length < (normal_idx A).length
  · rw [if_pos hb] at hsel
    obtain ⟨hnd, hmem, hslen⟩ := hsel
    have hsel0 : ∀ x ∈ (sel.map f).map Prod.snd, x = 0 := by
      intro x hx
      obtain ⟨p, hp, rfl⟩ := List.mem_map.mp hx
      obtain ⟨i, hi, rfl⟩ := List.mem_map.mp hp
      exact normal_idx_label (hmem i hi)
    have hano1 : ∀ x ∈ ((anomaly_idx A).map f).map Prod.snd, x = 1 := by
      intro x hx
      obtain ⟨p, hp, rfl⟩ := List.mem_map.mp hx
      obtain ⟨i, hi, rfl⟩ := List.mem_map.mp hp
      exact anomaly_idx_label hi
    have hk : min ((trainLabels ++ testLabels).countP (fun y => decide (y = 0)))
        ((trainLabels ++ testLabels).countP (fun y => decide (y = 1))) =
        (anomaly_idx A).length := by
      rw [← hn, ← ha]
      exact min_eq_right (le_of_lt hb)
    have c00 : ((sel.map f).map Prod.snd).countP (fun y => decide (y = 0)) =
        sel.length := by
      have hl0 : ((sel.map f).map Prod.snd).length = sel.length := by simp
      rw [← hl0]
      exact List.countP_eq_length.mpr (fun a haa => decide_eq_true (hsel0 a haa))
    have c01 : ((sel.map f).map Prod.snd).countP (fun y => decide (y = 1)) = 0 :=
      List.countP_eq_zero.mpr (fun a haa => by simp [hsel0 a haa])
    have c10 : (((anomaly_idx A).map f).map Prod.snd).countP
        (fun y => decide (y = 0)) = 0 :=
      List.countP_eq_zero.mpr (fun a haa => by simp [hano1 a haa])
    have c11 : (((anomaly_idx A).map f).map Prod.snd).countP
        (fun y => decide (y = 1)) = (anomaly_idx A).length := by
      have hl1 : (((anomaly_idx A).map f).map Prod.snd).length =
          (anomaly_idx A).length := by simp
      rw [← hl1]
      exact List.countP_eq_length.mpr (fun a haa => decide_eq_true (hano1 a haa))
    refine ⟨?_, ?_, ?_, ?_⟩
    · simp only [get_normalized_data, ← hA, ← hf]
      rw [if_pos hb, if_pos hb, hk]
      simp only [List.length_map, List.length_append, hslen]
      omega
    · simp only [get_normalized_data, ← hA, ← hf]
      rw [if_pos hb, if_pos hb, hk]
      simp only [List.length_map, List.length_append, hslen]
      omega
    · simp only [get_normalized_data, ← hA, ← hf]
      rw [if_pos hb, if_pos hb, hk, List.map_append, List.countP_append, c00, c10,
        hslen]
      omega
    · simp only [get_normalized_data, ← hA, ← hf]
      rw [if_pos hb, if_pos hb, hk, List.map_append, List.countP_append, c01, c11]
      omega
  · rw [if_neg hb] at hsel
    obtain ⟨hnd, hmem, hslen⟩ := hsel
    have hsel1 : ∀ x ∈ (sel.map f).map Prod.snd, x = 1 := by
      intro x hx
      obtain ⟨p, hp, rfl⟩ := List.mem_map.mp hx
      obtain ⟨i, hi, rfl⟩ := List.mem_map.mp hp
      exact anomaly_idx_label (hmem i hi)
    have hnor0 : ∀ x ∈ ((normal_idx A).map f).map Prod.snd, x = 0 := by
      intro x hx
      obtain ⟨p, hp, rfl⟩ := List.mem_map.mp hx
      obtain ⟨i, hi, rfl⟩ := List.mem_map.mp hp
      exact normal_idx_label hi
    have hk : min ((trainLabels ++ testLabels).countP (fun y => decide (y = 0)))
        ((trainLabels ++ testLabels).countP (fun y => decide (y = 1))) =
        (normal_idx A).length := by
      rw [← hn, ← ha]
      exact min_eq_left (le_of_not_lt hb)
    have c00 : (((normal_idx A).map f).map Prod.snd).countP
        (fun y => decide (y = 0)) = (normal_idx A).length := by
      have hl0 : (((normal_idx A).map f).map Prod.snd).length =
          (normal_idx A).length := by simp
      rw [← hl0]
      exact List.countP_eq_length.mpr (fun a haa => decide_eq_true (hnor0 a haa))
    have c01 : (((normal_idx A).map f).map Prod.snd).countP
        (fun y => decide (y = 1)) = 0 :=
      List.countP_eq_zero.mpr (fun a haa => by simp [hnor0 a haa])
    have c10 : ((sel.map f).map Prod.snd).countP (fun y => decide (y = 0)) = 0 :=
      List.countP_eq_zero.mpr (fun a haa => by simp [hsel1 a haa])
    have c11 : ((sel.map f).map Prod.snd).countP (fun y => decide (y = 1)) =
        sel.length := by
      have hl1 : ((sel.map f).map Prod.snd).length = sel.length := by simp
      rw [← hl1]
      exact List.countP_eq_length.mpr (fun a haa => decide_eq_true (hsel1 a haa))
    refine ⟨?_, ?_, ?_, ?_⟩
    · simp only [get_normalized_data, ← hA, ← hf]
      rw [if_neg hb, if_neg hb, hk]
      simp only [List.length_map, List.length_append, hslen]
      omega
    · simp only [get_normalized_data, ← hA, ← hf]
      rw [if_neg hb, if_neg hb, hk]
      simp only [List.length_map, List.length_append, hslen]
      omega
    · simp only [get_normalized_data, ← hA, ← hf]
      rw [if_neg hb, if_neg hb, hk, List.map_append, List.countP_append, c00, c10]
      omega
    · simp only [get_normalized_data, ← hA, ← hf]
      rw [if_neg hb, if_neg hb, hk, List.map_append, List.countP_append, c01, c11,
        hslen]
      omega

/-- Claim C5, witness: one label-0 row in train and one label-1 row in test;
the accessor returns one row of each label. -/
theorem get_normalized_data_parity_witness :
    ([[1]] ++ [[2]] : List Row).length = (([0] ++ [1] : List ℚ)).length ∧
    (get_normalized_data [[1]] [[2]] [0] [1] [1]).2.countP
        (fun y => decide (y = 1)) =
      min (([0] ++ [1] : List ℚ).countP (fun y => decide (y = 0)))
        (([0] ++ [1] : List ℚ).countP (fun y => decide (y = 1))) :=
  ⟨rfl,
   (get_normalized_data_parity [[1]] [[2]] [0] [1] [1] rfl (by decide)
     (by decide)).2.2.2⟩

/-- Claim C10: the output of get_normalized_data is grouped by class, not
interleaved: the label vector it returns is a block of zeros followed by a
block of ones (the selected label-0 rows are stacked, in full, before the
selected label-1 rows, and no shuffle follows the stacking). -/
theorem get_normalized_data_grouped (train test : List Row)
    (trainLabels testLabels : List ℚ) (sel : List ℕ)
    (hsel : if (anomaly_idx (all_norm_data train test trainLabels testLabels)).length <
        (normal_idx (all_norm_data train test trainLabels testLabels)).length
      then sel.Nodup ∧
        (∀ i ∈ sel, i ∈ normal_idx (all_norm_data train test trainLabels testLabels)) ∧
        sel.length = (anomaly_idx (all_norm_data train test trainLabels testLabels)).length
      else sel.Nodup ∧
        (∀ i ∈ sel, i ∈ anomaly_idx (all_norm_data train test trainLabels testLabels)) ∧
        sel.length = (normal_idx (all_norm_data train test trainLabels testLabels)).length) :
    ∃ a b, (get_normalized_data train test trainLabels testLabels sel).2 =
      List.replicate a 0 ++ List.replicate b 1 := by
  set A := all_norm_data train test trainLabels testLabels with hA
  set f : ℕ → Row × ℚ := fun i => A.getD i ([], 0) with hf
  by_cases hb : (anomaly_idx A).length < (normal_idx A).length
  · rw [if_pos hb] at hsel
    obtain ⟨hnd, hmem, hslen⟩ := hsel
    have hsel0 : ∀ x ∈ (sel.map f).map Prod.snd, x = 0 := by
      intro x hx
      obtain ⟨p, hp, rfl⟩ := List.mem_map.mp hx
      obtain ⟨i, hi, rfl⟩ := List.mem_map.mp hp
      exact normal_idx_label (hmem i hi)
    have hano1 : ∀ x ∈ ((anomaly_idx A).map f).map Prod.snd, x = 1 := by
      intro x hx
      obtain ⟨p, hp, rfl⟩ := List.mem_map.mp hx
      obtain ⟨i, hi, rfl⟩ := List.mem_map.mp hp
      exact anomaly_idx_label hi
    refine ⟨((sel.map f).map Prod.snd).length,
      (((anomaly_idx A).map f).map Prod.snd).length, ?_⟩
    have e0 : (sel.map f).map Prod.snd =
        List.replicate ((sel.map f).map Prod.snd).length (0 : ℚ) :=
      List.eq_replicate_iff.mpr ⟨rfl, hsel0⟩
    have e1 : ((anomaly_idx A).map f).map Prod.snd =
        List.replicate (((anomaly_idx A).map f).map Prod.snd).length (1 : ℚ) :=
      List.eq_replicate_iff.mpr ⟨rfl, hano1⟩
    simp only [get_normalized_data, ← hA, ← hf]
    rw [if_pos hb, if_pos hb, List.map_append, e0, e1]
    simp
  · rw [if_neg hb] at hsel
    obtain ⟨hnd, hmem, hslen⟩ := hsel
    have hsel1 : ∀ x ∈ (sel.map f).map Prod.snd, x = 1 := by
      intro x hx
      obtain ⟨p, hp, rfl⟩ := List.mem_map.mp hx
      obtain ⟨i, hi, rfl⟩ := List.mem_map.mp hp
      exact anomaly_idx_label (hmem i hi)
    have hnor0 : ∀ x ∈ ((normal_idx A).map f).map Prod.snd, x = 0 := by
      intro x hx
      obtain ⟨p, hp, rfl⟩ := List.mem_map.mp hx
      obtain ⟨i, hi, rfl⟩ := List.mem_map.mp hp
      exact normal_idx_label hi
    refine ⟨(((normal_idx A).map f).map Prod.snd).length,
      ((sel.map f).map Prod.snd).length, ?_⟩
    have e0 : ((normal_idx A).map f).map Prod.snd =
        List.replicate (((normal_idx A).map f).map Prod.snd).length (0 : ℚ) :=
      List.eq_replicate_iff.mpr ⟨rfl, hnor0⟩
    have e1 : (sel.map f).map Prod.snd =
        List.replicate ((sel.map f).map Prod.snd).length (1 : ℚ) :=
      List.eq_replicate_iff.mpr ⟨rfl, hsel1⟩
    simp only [get_normalized_data, ← hA, ← hf]
    rw [if_neg hb, if_neg hb, List.map_append, e0, e1]
    simp

/-- Claim C10, witness: a concrete populated state; the returned label vector
is [0, 1], a zero block before a one block. -/
theorem get_normalized_data_grouped_witness :
    ∃ a b, (get_normalized_data [[3]] [[4]] [0] [1] [1]).2 =
      List.replicate a 0 ++ List.replicate b 1 :=
  get_normalized_data_grouped [[3]] [[4]] [0] [1] [1] (by decide)

end AnomalyAENN
